import Mathlib

/-!
Verification development for the CuteVariant core: the filter/field compiler
(DSL to relational query text), the dynamic schema / selection store, and the
packed-annotation parsers. The compiler and store are modelled from the
specification (their implementation modules are not part of the shipped
sources; only their test suites are), faithful to the wording of sections 3,
4.3, 4.4 and 4.5 of the specification. The annotation parsers are embedded
directly from cutevariant/core/reader/annotationparser.py.
-/

/-- Modelled from the spec: a literal value of the query IR. Section 9 asks for
a tagged-value list (Str, Int, Float, Bool); the null value drives the
IS NULL / IS NOT NULL operators. A floating literal is carried as its decimal
text, since the compiler only formats literals and never computes with them. -/
inductive Value where
  | vstr (s : String)
  | vint (n : Int)
  | vfloat (txt : String)
  | vbool (b : Bool)
  | vnull
deriving DecidableEq, Repr

/-- Modelled from the spec: literal formatting by runtime type. Strings are
single-quoted verbatim (no escaping performed, a known limitation), numbers
are unquoted. -/
def format_value : Value → String
  | .vstr s => "\x27" ++ s ++ "\x27"
  | .vint n => toString n
  | .vfloat txt => txt
  | .vbool b => if b then "1" else "0"
  | .vnull => "NULL"

/-- Modelled from the spec: the target table of a leaf. The reserved key
$table defaults to the variant table; $name is required exactly when
$table is the sample category, naming which genotype table to target
(section 3), hence the tagged representation suggested in section 9. -/
inductive TableRef where
  | variantT
  | annotT
  | sampleT (name : String)
deriving DecidableEq, Repr

/-- Modelled from the spec: the table alias a leaf resolves to: variant by
default, annotation, or sample_NAME when $table is the sample category. -/
def table_alias : TableRef → String
  | .variantT => "variant"
  | .annotT => "annotation"
  | .sampleT n => "sample_" ++ n

/-- Modelled from the spec: a leaf value is either a literal (implying
equality, or IS NULL for the null literal), or a single-key operator mapping
from the set gt, gte, lt, lte, ne, in, nin, regex, where the operand of
in / nin is either a literal list or a named wordset reference. -/
inductive CondValue where
  | lit (v : Value)
  | gt (v : Value)
  | gte (v : Value)
  | lt (v : Value)
  | lte (v : Value)
  | ne (v : Value)
  | inList (vs : List Value)
  | ninList (vs : List Value)
  | inWordset (n : String)
  | ninWordset (n : String)
  | regex (s : String)
deriving DecidableEq, Repr

/-- Modelled from the spec: a leaf of the filter tree: one attribute key plus
the resolved target table. -/
structure Condition where
  table : TableRef
  field : String
  value : CondValue
deriving DecidableEq, Repr

/-- A backtick-quoted column reference TABLE.COLUMN. -/
def column_ref (t : TableRef) (f : String) : String :=
  "`" ++ table_alias t ++ "`.`" ++ f ++ "`"

/-- Modelled from the spec: compile_leaf (condition_to_sql in the test suite).
Resolves the table alias, the operator and the literal formatting; a list
operand is rendered comma-joined with each element keeping its own per-type
formatting; a wordset operand becomes a subquery against the wordsets store. -/
def condition_to_sql (c : Condition) : String :=
  let col := column_ref c.table c.field
  match c.value with
  | .lit .vnull => col ++ " IS NULL"
  | .lit v => col ++ " = " ++ format_value v
  | .gt v => col ++ " > " ++ format_value v
  | .gte v => col ++ " >= " ++ format_value v
  | .lt v => col ++ " < " ++ format_value v
  | .lte v => col ++ " <= " ++ format_value v
  | .ne .vnull => col ++ " IS NOT NULL"
  | .ne v => col ++ " != " ++ format_value v
  | .inList vs => col ++ " IN (" ++ String.intercalate "," (vs.map format_value) ++ ")"
  | .ninList vs => col ++ " NOT IN (" ++ String.intercalate "," (vs.map format_value) ++ ")"
  | .inWordset n => col ++ " IN (SELECT value FROM wordsets WHERE name = \x27" ++ n ++ "\x27)"
  | .ninWordset n => col ++ " NOT IN (SELECT value FROM wordsets WHERE name = \x27" ++ n ++ "\x27)"
  | .regex s => col ++ " REGEXP \x27" ++ s ++ "\x27"

/-- Modelled from the spec: the filter tree IR. A node is an $and list, an
$or list, or a leaf; the empty mapping is the empty tree. -/
inductive FilterTree where
  | empty
  | leaf (c : Condition)
  | conj (cs : List FilterTree)
  | disj (cs : List FilterTree)
deriving Repr

mutual

/-- Modelled from the spec: compile_tree (filters_to_sql in the test suite).
Recursive descent: an $and node joins its compiled children with AND, an $or
node with OR, each such node parenthesized; a leaf is emitted bare; the empty
tree compiles to empty text. A zero-child $and compiles to the literal (). -/
def filters_to_sql : FilterTree → String
  | .empty => ""
  | .leaf c => condition_to_sql c
  | .conj cs => "(" ++ String.intercalate " AND " (filters_to_sql_list cs) ++ ")"
  | .disj cs => "(" ++ String.intercalate " OR " (filters_to_sql_list cs) ++ ")"

/-- The compiled texts of a list of child nodes, in order. -/
def filters_to_sql_list : List FilterTree → List String
  | [] => []
  | t :: ts => filters_to_sql t :: filters_to_sql_list ts

end

mutual

/-- Modelled from the spec: flatten (filters_to_flat in the test suite):
depth-first flattening of $and / $or nesting into the ordered list of leaves,
discarding boolean structure; used only for join-requirement analysis. -/
def filters_to_flat : FilterTree → List Condition
  | .empty => []
  | .leaf c => [c]
  | .conj cs => filters_to_flat_list cs
  | .disj cs => filters_to_flat_list cs

/-- The concatenated flattened leaves of a list of child nodes, in order. -/
def filters_to_flat_list : List FilterTree → List Condition
  | [] => []
  | t :: ts => filters_to_flat t ++ filters_to_flat_list ts

end

/-- Modelled from the spec: the projection spec
(variant: [names], annotation: [names], sample: name to [names]); the sample
part is carried as an ordered association list since spec order is
observable. -/
structure Projection where
  variant : List String
  annot : List String
  samples : List (String × List String)
deriving DecidableEq, Repr

/-- The projection with no requested field. -/
def emptyProjection : Projection := ⟨[], [], []⟩

/-- Modelled from the spec: compile_projection (fields_to_sql in the test
suite): every requested variant column, then every requested annotation
column, then for every sample in spec order every requested genotype column,
each referencing that table alias. -/
def fields_to_sql (p : Projection) : List String :=
  p.variant.map (fun f => column_ref .variantT f)
    ++ p.annot.map (fun f => column_ref .annotT f)
    ++ p.samples.flatMap (fun nf => nf.2.map (fun f => column_ref (.sampleT nf.1) f))

/-- Modelled from the spec: annotation_join_required: true iff the projection
requests any annotation field, or any flattened leaf targets the annotation
table. -/
def is_annotation_join_required (p : Projection) (t : FilterTree) : Bool :=
  !p.annot.isEmpty || (filters_to_flat t).any (fun c => c.table = .annotT)

/-- Append a name to an accumulator unless it is already present. -/
def add_unique (acc : List String) (n : String) : List String :=
  if n ∈ acc then acc else acc ++ [n]

/-- The $name of a flattened leaf that targets a sample genotype table. -/
def sample_name_of (c : Condition) : Option String :=
  match c.table with
  | .sampleT n => some n
  | _ => none

/-- Modelled from the spec: sample_joins_required (samples_join_required in
the test suite): ordered, de-duplicated list combining every sample key of
the projection spec in spec order, followed by every distinct $name referenced
by a flattened sample-table leaf in first-occurrence order, skipping names
already included from the projection. -/
def samples_join_required (p : Projection) (t : FilterTree) : List String :=
  ((filters_to_flat t).filterMap sample_name_of).foldl add_unique (p.samples.map Prod.fst)

/-- Modelled from the spec: the filter clause of the assembled query, present
iff the compiled tree is non-empty text. -/
def where_clause (t : FilterTree) : String :=
  let w := filters_to_sql t
  if w = "" then "" else " WHERE " ++ w

/-- Modelled from the spec: the annotation join, emitted iff required. -/
def annotation_join_sql : String :=
  " INNER JOIN annotation ON annotation.variant_id = variant.id"

/-- Modelled from the spec: one sample join, predicated on variant-identity
equality and the sample numeric id resolved from the supplied map. -/
def sample_join_sql (n : String) (sid : Nat) : String :=
  " INNER JOIN sample_has_variant `sample_" ++ n ++ "` ON `sample_" ++ n
    ++ "`.variant_id = variant.id AND `sample_" ++ n ++ "`.sample_id = " ++ toString sid

/-- Modelled from the spec: the selection-membership join, emitted iff the
source names something other than the base variant table, filtering the
membership association by the named selection. -/
def selection_join_sql (source : String) : String :=
  " INNER JOIN selection_has_variant sv ON sv.variant_id = variant.id"
    ++ " INNER JOIN selections s ON s.id = sv.selection_id AND s.name = \x27" ++ source ++ "\x27"

/-- Modelled from the spec: the GROUP BY clause, present when grouping columns
are given, with the same column-reference formatting as the projection. -/
def group_by_clause (g : Projection) : String :=
  if fields_to_sql g = [] then ""
  else " GROUP BY " ++ String.intercalate "," (fields_to_sql g)

/-- Modelled from the spec: the ORDER BY clause, optionally DESC, when
given. -/
def order_by_clause (o : Projection) (desc : Bool) : String :=
  if fields_to_sql o = [] then ""
  else " ORDER BY " ++ String.intercalate "," (fields_to_sql o) ++ (if desc then " DESC" else "")

/-- Modelled from the spec: the LIMIT / OFFSET clause, always emitted with the
stated defaults (limit 50, offset 0) unless the caller explicitly asks for no
limit, in which case the clause is omitted entirely. -/
def limit_clause (lim : Option Nat) (off : Nat) : String :=
  match lim with
  | none => ""
  | some l => " LIMIT " ++ toString l ++ " OFFSET " ++ toString off

/-- Modelled from the spec: compile_query (build_sql_query in the test suite).
Assembles in fixed order: SELECT DISTINCT identity column plus projection,
FROM the variant table, the annotation join iff required, one sample join per
entry of samples_join_required in that order (an unresolvable sample name is
an error, modelled as none), the selection-membership join iff the source is
not the base variant table, the filter clause iff non-empty, GROUP BY,
ORDER BY, and LIMIT / OFFSET. -/
def build_sql_query (p : Projection) (source : String) (t : FilterTree)
    (g : Projection) (o : Projection) (odesc : Bool)
    (lim : Option Nat) (off : Nat) (sids : List (String × Nat)) : Option String := do
  let sjoins ← (samples_join_required p t).mapM
    (fun n => (List.lookup n sids).map (fun i => sample_join_sql n i))
  pure <|
    "SELECT DISTINCT " ++ String.intercalate "," (column_ref .variantT "id" :: fields_to_sql p)
    ++ " FROM variant"
    ++ (if is_annotation_join_required p t then annotation_join_sql else "")
    ++ String.join sjoins
    ++ (if source = "variant" then "" else selection_join_sql source)
    ++ where_clause t
    ++ group_by_clause g
    ++ order_by_clause o odesc
    ++ limit_clause lim off


/-! ## The dynamic schema and selection store (sections 4.1, 4.2, 4.3, 4.5) -/

/-- Modelled from the spec: a field descriptor of the catalog:
name, category, type and description; unique key is (category, name). -/
structure FieldD where
  name : String
  category : String
  ftype : String
  description : String
deriving DecidableEq, Repr

/-- Modelled from the spec: a selection record: a name and the stored count
(the membership rows live in the association table of the store). -/
structure Selection where
  name : String
  count : Nat
deriving DecidableEq, Repr

/-- Modelled from the spec: the relational store: the field catalog in
registration order, the variant table rows in insertion order (the synthetic
identity of the row at position i is i + 1), the selections in creation order
(the id of the selection at position i is i + 1), and the
(selection id, variant id) membership association with set semantics. -/
structure Store where
  fields : List FieldD
  variants : List (List Value)
  selections : List Selection
  membership : List (Nat × Nat)
deriving DecidableEq, Repr

/-- The store right after schema creation, before any registration. -/
def empty_store : Store := ⟨[], [], [], []⟩

/-- Modelled from the spec: register_fields (insert_many_fields in the test
suite), idempotent by (category, name): a descriptor whose key already exists
is ignored, otherwise it is appended in registration order. -/
def insert_many_fields (s : Store) (fs : List FieldD) : Store :=
  fs.foldl
    (fun st f =>
      if st.fields.any (fun g => g.category = f.category ∧ g.name = f.name) then st
      else { st with fields := st.fields ++ [f] })
    s

/-- Modelled from the spec: list_fields (get_fields in the test suite):
the registered descriptors in original registration order. -/
def get_fields (s : Store) : List FieldD := s.fields

/-- The names of the variant-category fields of a catalog, in registration
order: they are the columns of the variant table. -/
def variant_field_names (fields : List FieldD) : List String :=
  (fields.filter (fun f => f.category = "variant")).map (fun f => f.name)

/-- An ingest record: an ordered mapping from field name to value. -/
def Record : Type := List (String × Value)

/-- The variant row built from one record: the values of the variant-category
fields in catalog order (a field absent from the record is null). -/
def row_of (names : List String) (r : Record) : List Value :=
  names.map (fun n => (List.lookup n r).getD Value.vnull)

/-- Modelled from the spec: insert_selection: appends one selections row
(name, count); the new selection receives the next id in creation order, and
one membership row is added per given variant identity. -/
def insert_selection (s : Store) (name : String) (count : Nat) (ids : List Nat) : Store :=
  { s with
    selections := s.selections ++ [⟨name, count⟩],
    membership := s.membership ++ ids.map (fun v => (s.selections.length + 1, v)) }

/-- The identities of every variant row of the store, in row order. -/
def all_variant_ids (s : Store) : List Nat := List.range' 1 s.variants.length

/-- Modelled from the spec: the bootstrap "all" selection, materialized after
the first ingest, covering every variant identity, with count equal to the
live variant table cardinality at creation time. -/
def create_selection_all (s : Store) : Store :=
  insert_selection s "all" s.variants.length (all_variant_ids s)

/-- Modelled from the spec: insert_records (insert_many_variants in the test
suite): appends one variant row per record in input order, each row using only
the variant-category fields in catalog order; after the first successful
ingest the bootstrap "all" selection is materialized. -/
def insert_many_variants (s : Store) (records : List Record) : Store :=
  let names := variant_field_names s.fields
  let first := s.variants.isEmpty
  let s1 := { s with variants := s.variants ++ records.map (row_of names) }
  if first then create_selection_all s1 else s1

/-- Modelled from the spec: a query is denoted by its variant-identity result
list over a store (the compiler emits its text; the store only consumes the
matched identities, possibly with duplicates). -/
def Query : Type := Store → List Nat

/-- Modelled from the spec: combine with the union operator (union_variants in
the test suite): a query whose result set is the set union of the two
operand results. -/
def union_variants (a b : Query) : Query := fun s => a s ++ b s

/-- Modelled from the spec: materialize (create_selection_from_sql in the test
suite): executes the query, collects the distinct set of matched variant
identities, inserts one selections row (name, count equal to the set size) and
one membership row per identity. -/
def create_selection_from_sql (s : Store) (name : String) (q : Query) : Store :=
  let ids := (q s).dedup
  insert_selection s name ids.length ids

/-- A store is well formed when every membership row names an existing
selection id. -/
def store_wf (s : Store) : Prop :=
  ∀ p ∈ s.membership, p.1 ≤ s.selections.length

/-! ## The packed-annotation parsers
(cutevariant/core/reader/annotationparser.py) -/

/-- The rest of the list after the given expected leading run, if it is
indeed leading. -/
def drop_leading : List Char → List Char → Option (List Char)
  | [], l => some l
  | _ :: _, [] => none
  | c :: cs, x :: xs => if c = x then drop_leading cs xs else none

/-- The suffix following the first occurrence of the pattern, scanning left to
right, or none when the pattern never occurs. -/
def after_first (m : List Char) (l : List Char) : Option (List Char) :=
  match drop_leading m l with
  | some r => some r
  | none =>
      match l with
      | [] => none
      | _ :: xs => after_first m xs

/-- Splitting a character list on every occurrence of a separator character,
keeping empty pieces, as the Python str.split method does on a one-character
separator: the empty text yields one empty piece. -/
def split_char (c : Char) : List Char → List (List Char)
  | [] => [[]]
  | x :: xs =>
      match split_char c xs with
      | [] => if x = c then [[], []] else [[x]]
      | h :: t => if x = c then [] :: h :: t else (x :: h) :: t

/-- Python str.split on a one-character separator, over the text of a
string. -/
def py_split (c : Char) (s : String) : List String :=
  (split_char c s.data).map (fun l => String.mk l)

/-- A parsed variant after annotation expansion: the remaining (name, value)
entries with the packed key removed, and the exploded per-transcript
annotation records when a packed key was present (each record maps the header
field names positionally to the entry pieces). -/
structure OutVariant where
  fields : List (String × String)
  anns : Option (List (List (String × String)))
deriving DecidableEq, Repr

/-- One iteration of the parse_variants loop shared by VepParser and
SnpEffParser (the two bodies are textually identical up to the packed key):
if the packed key is absent the variant is yielded unchanged; otherwise the
packed value is split on commas into transcript entries, each entry split on
pipes; an entry whose piece count differs from the header field count is
skipped, and each kept entry becomes the positional mapping of the header
names to its pieces. -/
def parse_packed_one (key : String) (names : List String)
    (v : List (String × String)) : OutVariant :=
  match List.lookup key v with
  | none => ⟨v, none⟩
  | some raw =>
      let entries := (py_split ',' raw).filterMap (fun ts =>
        let tr := py_split '|' ts
        if tr.length = names.length then some (names.zip tr) else none)
      ⟨v.filter (fun p => p.1 ≠ key), some entries⟩

/-- VepParser.parse_variants: the parser state is its annotation_field_name
attribute, absent (none) until parse_fields has run; iterating the generator
without it raises. The packed key is "csq". -/
def vep_parse_variants (st : Option (List String)) (vs : List (List (String × String))) :
    Except String (List OutVariant) :=
  match st with
  | none => .error "Cannot parse variant without parsing first fields"
  | some names => .ok (vs.map (parse_packed_one "csq" names))

/-- SnpEffParser.parse_variants: identical to the VEP loop with packed key
"ann". -/
def snpeff_parse_variants (st : Option (List String)) (vs : List (List (String × String))) :
    Except String (List OutVariant) :=
  match st with
  | none => .error "Cannot parse variant without parsing first fields"
  | some names => .ok (vs.map (parse_packed_one "ann" names))

/-- The text captured by re.search with pattern "Format: (.+)" on a
single-line description: everything after the first occurrence of the marker,
provided it is non-empty. -/
def search_after_marker (marker desc : String) : Option String :=
  match desc.splitOn marker with
  | [] => none
  | [_] => none
  | _ :: rest =>
      let tail := String.intercalate marker rest
      if tail = "" then none else some tail

/-- The text captured by a greedy quoted-group regex on a single-line
description: everything between the first and the last single quote, provided
it is non-empty. -/
def search_between_quotes (desc : String) : Option String :=
  match desc.splitOn "\x27" with
  | [] => none
  | [_] => none
  | _ :: rest =>
      let inner := String.intercalate "\x27" rest.dropLast
      if inner = "" then none else some inner

/-- The VEP_ANNOTATION_DEFAULT_FIELDS remap of a normalized raw header name to
the stored field name; a name absent from the table keeps itself. -/
def vep_field_remap (raw : String) : String :=
  if raw = "allele" then "allele"
  else if raw = "consequence" then "consequence"
  else if raw = "symbol" then "gene"
  else if raw = "gene" then "gene_id"
  else if raw = "feature" then "transcript"
  else if raw = "biotype" then "biotype"
  else if raw = "hgvsp" then "hgvs_p"
  else if raw = "hgvsc" then "hgvs_c"
  else if raw = "cdna_position" then "cdna_pos"
  else if raw = "cds_position" then "cds_pos"
  else if raw = "protein_position" then "aa_pos"
  else raw

/-- The SNPEFF_ANNOTATION_DEFAULT_FIELDS remap of a normalized raw header name
to the stored field name; a name absent from the table keeps itself. -/
def snpeff_field_remap (raw : String) : String :=
  if raw = "annotation" then "consequence"
  else if raw = "annotation_impact" then "impact"
  else if raw = "gene_name" then "gene"
  else if raw = "gene_id" then "gene_id"
  else if raw = "feature_id" then "transcript"
  else if raw = "transcript_biotype" then "biotype"
  else if raw = "hgvs.p" then "hgvs_p"
  else if raw = "hgvs.c" then "hgvs_c"
  else if raw = "cdna.pos / cdna.length" then "cdna_pos"
  else if raw = "cds.pos / cds.length" then "cds_pos"
  else if raw = "aa.pos / aa.length" then "aa_pos"
  else if raw = "errors / warnings / info" then "log"
  else raw

/-- The header names extracted from one packed-field description: the captured
group split on pipes, each piece trimmed, lowercased and remapped. -/
def header_names (captured : String) (remap : String → String) : List String :=
  (py_split '|' captured).map (fun i => remap i.trim.toLower)

/-- VepParser.parse_fields, restricted to the state it establishes: the
annotation_field_name list collected from every field named "csq" (the header
captured after the "Format: " marker of its description); a csq field whose
description has no capture makes the generator raise (subscripting a failed
regex search). The yielded descriptor stream is not needed by the claims and
is not modelled. -/
def vep_parse_fields (fields : List FieldD) : Except String (List String) :=
  fields.foldlM
    (fun acc f =>
      if f.name = "csq" then
        match search_after_marker "Format: " f.description with
        | none => .error "TypeError"
        | some grp => .ok (acc ++ header_names grp vep_field_remap)
      else .ok acc)
    []

/-- SnpEffParser.parse_fields, restricted to the state it establishes: the
annotation_field_name list collected from every field named "ann" (the header
captured between the outer quotes of its description). -/
def snpeff_parse_fields (fields : List FieldD) : Except String (List String) :=
  fields.foldlM
    (fun acc f =>
      if f.name = "ann" then
        match search_between_quotes f.description with
        | none => .error "TypeError"
        | some grp => .ok (acc ++ header_names grp snpeff_field_remap)
      else .ok acc)
    []

/-! ## Claims -/

/-- C2: compile_leaf maps a leaf to the exact text of the spec: an equality
leaf on chr with string literal chr3 compiles to the default variant alias
with the single-quoted literal; a $gte leaf on qual with operand 4 compiles
with the unquoted number; a $nin leaf on gene against the annotation table
compiles to NOT IN with the comma-joined quoted list. -/
theorem condition_to_sql_spec_examples :
    condition_to_sql ⟨.variantT, "chr", .lit (.vstr "chr3")⟩
        = "`variant`.`chr` = \x27chr3\x27"
    ∧ condition_to_sql ⟨.variantT, "qual", .gte (.vint 4)⟩
        = "`variant`.`qual` >= 4"
    ∧ condition_to_sql ⟨.annotT, "gene", .ninList [.vstr "CFTR", .vstr "GJB2"]⟩
        = "`annotation`.`gene` NOT IN (\x27CFTR\x27,\x27GJB2\x27)" :=
  ⟨rfl, rfl, rfl⟩

/-- C4: a list operand of $in or $nin is rendered as the comma-joined
sequence of its elements, each formatted by its own runtime type with no
coercion: strings stay single-quoted, numeric literals stay unquoted; in
particular the mixed operand (CICP23, 2.0) on the annotation table compiles
to the quoted string next to the bare float text. -/
theorem in_list_mixed_type_formatting :
    (∀ (t : TableRef) (f : String) (vs : List Value),
        condition_to_sql ⟨t, f, .inList vs⟩
          = column_ref t f ++ " IN ("
              ++ String.intercalate "," (vs.map format_value) ++ ")")
    ∧ (∀ (t : TableRef) (f : String) (vs : List Value),
        condition_to_sql ⟨t, f, .ninList vs⟩
          = column_ref t f ++ " NOT IN ("
              ++ String.intercalate "," (vs.map format_value) ++ ")")
    ∧ (∀ s : String, format_value (.vstr s) = "\x27" ++ s ++ "\x27")
    ∧ (∀ n : Int, format_value (.vint n) = toString n)
    ∧ (∀ txt : String, format_value (.vfloat txt) = txt)
    ∧ condition_to_sql ⟨.annotT, "gene", .inList [.vstr "CICP23", .vfloat "2.0"]⟩
        = "`annotation`.`gene` IN (\x27CICP23\x27,2.0)" :=
  ⟨fun _ _ _ => rfl, fun _ _ _ => rfl, fun _ => rfl, fun _ => rfl, fun _ => rfl, rfl⟩

/-- C3: compile_tree of the empty tree is the empty string, hence the
assembled query carries no WHERE clause at all (the filter clause of the
query is empty text), and compile_tree of a zero-child $and is exactly the
two-character text (), not an error and not a simplification. -/
theorem filters_to_sql_empty_and_degenerate :
    filters_to_sql .empty = ""
    ∧ where_clause .empty = ""
    ∧ filters_to_sql (.conj []) = "()"
    ∧ after_first "WHERE".data
        ((build_sql_query ⟨["chr", "pos"], [], []⟩ "variant" .empty
          emptyProjection emptyProjection false (some 50) 0 []).getD "").data = none :=
  ⟨rfl, rfl, rfl, by decide⟩

/-- C1: for a projection requesting only the variant fields chr and pos, the
base variant table as source, the empty filter tree and default paging,
compile_query returns exactly the single SELECT DISTINCT statement beginning
with the synthetic identity column followed by the two requested columns,
with no join and no WHERE clause, ending in LIMIT 50 OFFSET 0; and with the
default paging arguments the assembled text of any query ends in
LIMIT 50 OFFSET 0. -/
theorem build_sql_query_simple :
    build_sql_query ⟨["chr", "pos"], [], []⟩ "variant" .empty
        emptyProjection emptyProjection false (some 50) 0 []
      = some "SELECT DISTINCT `variant`.`id`,`variant`.`chr`,`variant`.`pos` FROM variant LIMIT 50 OFFSET 0"
    ∧ after_first "JOIN".data
        "SELECT DISTINCT `variant`.`id`,`variant`.`chr`,`variant`.`pos` FROM variant LIMIT 50 OFFSET 0".data
      = none
    ∧ after_first "WHERE".data
        "SELECT DISTINCT `variant`.`id`,`variant`.`chr`,`variant`.`pos` FROM variant LIMIT 50 OFFSET 0".data
      = none
    ∧ ∀ (p : Projection) (source : String) (t : FilterTree) (g o : Projection)
        (od : Bool) (sids : List (String × Nat)) (q : String),
        build_sql_query p source t g o od (some 50) 0 sids = some q →
        ∃ pre, q = pre ++ " LIMIT 50 OFFSET 0" := by
  refine ⟨rfl, by decide, by decide, ?_⟩
  intro p source t g o od sids q hq
  unfold build_sql_query at hq
  cases hmap : (samples_join_required p t).mapM
      (fun n => (List.lookup n sids).map (fun i => sample_join_sql n i)) with
  | none => rw [hmap] at hq; simp at hq
  | some sjoins =>
      rw [hmap] at hq
      simp only [Option.bind_eq_bind, Option.some_bind, Option.pure_def,
        Option.some.injEq] at hq
      rw [show limit_clause (some 50) 0 = " LIMIT 50 OFFSET 0" from rfl] at hq
      exact ⟨_, hq.symm⟩

/-- Witness for the C1 theorem at its concrete default-paging input. -/
theorem build_sql_query_simple_witness :
    ∃ pre,
      "SELECT DISTINCT `variant`.`id`,`variant`.`chr`,`variant`.`pos` FROM variant LIMIT 50 OFFSET 0"
        = pre ++ " LIMIT 50 OFFSET 0" :=
  build_sql_query_simple.2.2.2 ⟨["chr", "pos"], [], []⟩ "variant" .empty
    emptyProjection emptyProjection false [] _ rfl

/-- The claim-side description of de-duplication: each name kept at its first
occurrence, skipping any name already seen. -/
def first_occurrences (seen : List String) : List String → List String
  | [] => []
  | n :: ns =>
      if n ∈ seen then first_occurrences seen ns
      else n :: first_occurrences (n :: seen) ns

theorem first_occurrences_congr (seen seen2 : List String)
    (h : ∀ x, x ∈ seen ↔ x ∈ seen2) :
    ∀ ns, first_occurrences seen ns = first_occurrences seen2 ns := by
  intro ns
  induction ns generalizing seen seen2 with
  | nil => rfl
  | cons n ns ih =>
      simp only [first_occurrences]
      by_cases hn : n ∈ seen
      · rw [if_pos hn, if_pos ((h n).mp hn), ih seen seen2 h]
      · rw [if_neg hn, if_neg (fun hx => hn ((h n).mpr hx))]
        rw [ih (n :: seen) (n :: seen2) (by intro x; simp [h x])]

theorem foldl_add_unique (ns : List String) :
    ∀ acc, ns.foldl add_unique acc = acc ++ first_occurrences acc ns := by
  induction ns with
  | nil => intro acc; simp [first_occurrences]
  | cons n ns ih =>
      intro acc
      simp only [List.foldl_cons, first_occurrences, add_unique]
      by_cases hn : n ∈ acc
      · rw [if_pos hn, if_pos hn, ih acc]
      · rw [if_neg hn, if_neg hn, ih (acc ++ [n])]
        rw [first_occurrences_congr (acc ++ [n]) (n :: acc) (by intro x; simp; tauto)]
        simp

theorem first_occurrences_disjoint (ns : List String) :
    ∀ seen, (first_occurrences seen ns).Nodup
      ∧ ∀ x ∈ first_occurrences seen ns, x ∉ seen := by
  induction ns with
  | nil => intro seen; simp [first_occurrences]
  | cons n ns ih =>
      intro seen
      simp only [first_occurrences]
      by_cases hn : n ∈ seen
      · rw [if_pos hn]; exact ih seen
      · rw [if_neg hn]
        obtain ⟨hnd, hdisj⟩ := ih (n :: seen)
        refine ⟨List.nodup_cons.mpr ⟨fun hmem => ?_, hnd⟩, ?_⟩
        · exact hdisj n hmem (List.mem_cons_self n seen)
        · intro x hx
          rcases List.mem_cons.mp hx with h1 | h1
          · exact h1 ▸ hn
          · exact fun hs => hdisj x h1 (List.mem_cons_of_mem n hs)

/-- C5: sample_joins_required returns the ordered duplicate-free list formed
by the sample names of the projection spec in spec order, followed by the
distinct sample-table $name references of the flattened filter leaves in
first-occurrence order skipping names already contributed by the projection;
a name occurring in both parts therefore occurs exactly once, at its
projection position in the projection prefix. -/
theorem samples_join_required_spec (p : Projection) (t : FilterTree)
    (h : (p.samples.map Prod.fst).Nodup) :
    samples_join_required p t
        = p.samples.map Prod.fst
          ++ first_occurrences (p.samples.map Prod.fst)
              ((filters_to_flat t).filterMap sample_name_of)
      ∧ (samples_join_required p t).Nodup
      ∧ ∀ n ∈ p.samples.map Prod.fst,
          List.count n (samples_join_required p t) = 1 := by
  have heq : samples_join_required p t
      = p.samples.map Prod.fst
        ++ first_occurrences (p.samples.map Prod.fst)
            ((filters_to_flat t).filterMap sample_name_of) :=
    foldl_add_unique _ _
  obtain ⟨hnd, hdisj⟩ :=
    first_occurrences_disjoint ((filters_to_flat t).filterMap sample_name_of)
      (p.samples.map Prod.fst)
  have hnodup : (samples_join_required p t).Nodup := by
    rw [heq]
    exact List.Nodup.append h hnd (fun x hx hy => hdisj x hy hx)
  refine ⟨heq, hnodup, ?_⟩
  intro n hn
  have hmem : n ∈ samples_join_required p t := by
    rw [heq]; exact List.mem_append_left _ hn
  exact List.count_eq_one_of_mem hnodup hmem

/-- Witness for the C5 theorem: the projection naming sample boby and a
filter leaf referencing the same sample yield the name exactly once. -/
theorem samples_join_required_spec_witness :
    ((([("boby", ["gt"])] : List (String × List String)).map Prod.fst).Nodup)
      ∧ (samples_join_required ⟨["chr"], [], [("boby", ["gt"])]⟩
            (.leaf ⟨.sampleT "boby", "gt", .lit (.vint 1)⟩)).Nodup :=
  ⟨by decide,
    (samples_join_required_spec ⟨["chr"], [], [("boby", ["gt"])]⟩
      (.leaf ⟨.sampleT "boby", "gt", .lit (.vint 1)⟩) (by decide)).2.1⟩

/-- C6: ingesting records into a freshly prepared store (empty variant table,
no selection, no membership row) materializes the bootstrap selection named
all as the single selection, its stored count equals the number of variant
rows in the table at that moment, and its membership is exactly the set of
inserted variant identities 1..N. -/
theorem insert_many_variants_bootstrap (s : Store) (records : List Record)
    (hv : s.variants = []) (hs : s.selections = []) (hm : s.membership = []) :
    (insert_many_variants s records).selections = [⟨"all", records.length⟩]
      ∧ records.length = (insert_many_variants s records).variants.length
      ∧ ∀ v, (1, v) ∈ (insert_many_variants s records).membership
          ↔ (1 ≤ v ∧ v < records.length + 1) := by
  obtain ⟨f, vs, sel, mem⟩ := s
  simp only at hv hs hm
  subst hv; subst hs; subst hm
  simp only [insert_many_variants, List.isEmpty_nil, if_true,
    create_selection_all, insert_selection, all_variant_ids,
    List.nil_append, List.length_nil, List.length_map]
  refine ⟨trivial, trivial, ?_⟩
  intro v
  simp [List.mem_range'_1]
  omega

/-- Witness for the C6 theorem at a concrete one-record ingest. -/
theorem insert_many_variants_bootstrap_witness :
    (empty_store.variants = [] ∧ empty_store.selections = []
        ∧ empty_store.membership = [])
      ∧ (insert_many_variants empty_store [[("chr", Value.vstr "chr1")]]).selections
          = [⟨"all", 1⟩] :=
  ⟨⟨rfl, rfl, rfl⟩,
    (insert_many_variants_bootstrap empty_store [[("chr", Value.vstr "chr1")]]
      rfl rfl rfl).1⟩

/-- C7: materializing the union combination of two queries with result sets A
and B appends a selection whose stored count is the cardinality of the set
union of A and B, whose membership rows for the new selection id are exactly
the identities of A union B with no duplicate (set semantics): a variant is
reachable through the new selection membership join iff it satisfies the
disjunction of the two source queries. -/
theorem create_selection_union_spec (s : Store) (name : String) (a b : Query)
    (hwf : store_wf s) :
    (∀ v, (s.selections.length + 1, v)
          ∈ (create_selection_from_sql s name (union_variants a b)).membership
        ↔ (v ∈ a s ∨ v ∈ b s))
      ∧ (create_selection_from_sql s name (union_variants a b)).selections.getLast?
          = some ⟨name, ((a s).toFinset ∪ (b s).toFinset).card⟩
      ∧ ((((create_selection_from_sql s name (union_variants a b)).membership.filter
            (fun p => p.1 = s.selections.length + 1)).map Prod.snd)).Nodup := by
  constructor
  · intro v
    simp only [create_selection_from_sql, insert_selection, union_variants,
      List.mem_append, List.mem_map]
    constructor
    · rintro (hold | ⟨w, hw, hwp⟩)
      · exact absurd (hwf _ hold) (by omega)
      · obtain ⟨-, rfl⟩ := Prod.mk.injEq .. ▸ hwp
        have := List.mem_dedup.mp hw
        simpa [union_variants, List.mem_append] using this
    · intro hab
      right
      refine ⟨v, List.mem_dedup.mpr ?_, rfl⟩
      simpa [union_variants, List.mem_append] using hab
  constructor
  · simp only [create_selection_from_sql, insert_selection, union_variants]
    rw [List.getLast?_concat]
    have : ((a s ++ b s).dedup).length = ((a s).toFinset ∪ (b s).toFinset).card := by
      rw [← List.toFinset_append, List.card_toFinset]
    simp [union_variants, this]
  · simp only [create_selection_from_sql, insert_selection, union_variants,
      List.filter_append]
    have hold : s.membership.filter
        (fun p => p.1 = s.selections.length + 1) = [] := by
      rw [List.filter_eq_nil_iff]
      intro p hp
      have := hwf p hp
      simp only [decide_eq_true_eq]
      omega
    rw [hold, List.nil_append]
    have hnew : (((a s ++ b s).dedup.map
          (fun v => (s.selections.length + 1, v))).filter
            (fun p => p.1 = s.selections.length + 1))
        = (a s ++ b s).dedup.map (fun v => (s.selections.length + 1, v)) := by
      rw [List.filter_eq_self]
      intro p hp
      obtain ⟨w, -, rfl⟩ := List.mem_map.mp hp
      simp
    rw [hnew, List.map_map]
    have : (Prod.snd ∘ fun v => (s.selections.length + 1, v)) = (id : Nat → Nat) := rfl
    rw [this, List.map_id]
    exact List.nodup_dedup _

/-- Witness for the C7 theorem: the union of two concrete identity sets over
the fresh store. -/
theorem create_selection_union_spec_witness :
    store_wf empty_store
      ∧ (create_selection_from_sql empty_store "union_GT"
          (union_variants (fun _ => [1, 2]) (fun _ => [2, 3]))).selections.getLast?
        = some ⟨"union_GT",
            (([1, 2] : List Nat).toFinset ∪ ([2, 3] : List Nat).toFinset).card⟩ :=
  ⟨fun p hp => absurd hp (List.not_mem_nil p),
    (create_selection_union_spec empty_store "union_GT"
      (fun _ => [1, 2]) (fun _ => [2, 3])
      (fun p hp => absurd hp (List.not_mem_nil p))).2.1⟩

/-- The (category, name) unique key of a field descriptor. -/
def field_key (f : FieldD) : String × String := (f.category, f.name)

theorem insert_many_fields_eq_append (fs : List FieldD) :
    ∀ s : Store, ((s.fields ++ fs).map field_key).Nodup →
      (insert_many_fields s fs).fields = s.fields ++ fs := by
  induction fs with
  | nil => intro s _; simp [insert_many_fields]
  | cons f fs ih =>
      intro s h
      have hnotin : ∀ g ∈ s.fields, ¬(g.category = f.category ∧ g.name = f.name) := by
        intro g hg hcontra
        have h1 : field_key g ∈ (s.fields ++ f :: fs).map field_key :=
          List.mem_map_of_mem field_key (List.mem_append_left _ hg)
        have h2 : field_key g = field_key f := by
          simp [field_key, hcontra.1, hcontra.2]
        have h3 : (s.fields.map field_key ++ field_key f :: fs.map field_key).Nodup := by
          simpa using h
        have h4 : field_key f ∉ s.fields.map field_key := by
          have := List.disjoint_of_nodup_append h3
          intro hmem
          exact this hmem (List.mem_cons_self _ _)
        exact h4 (h2 ▸ List.mem_map_of_mem field_key hg)
      have hany : s.fields.any
          (fun g => decide (g.category = f.category ∧ g.name = f.name)) = false := by
        rw [List.any_eq_false]
        intro g hg
        simpa using hnotin g hg
      simp only [insert_many_fields, List.foldl_cons, hany]
      have := ih { s with fields := s.fields ++ [f] }
        (by simpa [List.append_assoc] using h)
      simpa [insert_many_fields, List.append_assoc] using this

theorem row_of_matching_keys :
    ∀ (r : Record), (r.map Prod.fst).Nodup →
      row_of (r.map Prod.fst) r = r.map Prod.snd := by
  intro r
  induction r with
  | nil => intro _; rfl
  | cons kv r ih =>
      intro h
      obtain ⟨k, v⟩ := kv
      simp only [List.map_cons, List.nodup_cons] at h
      obtain ⟨hk, hnd⟩ := h
      simp only [row_of, List.map_cons, List.cons.injEq]
      constructor
      · simp [List.lookup]
      · have hstep : (r.map Prod.fst).map
            (fun n => (List.lookup n ((k, v) :: r)).getD Value.vnull)
            = (r.map Prod.fst).map
                (fun n => (List.lookup n r).getD Value.vnull) := by
          apply List.map_congr_left
          intro n hn
          have hne : n ≠ k := fun hkn => hk (hkn ▸ hn)
          simp [List.lookup, beq_false_of_ne hne]
        rw [hstep]
        exact ih hnd

theorem nodup_snd_of_const_fst (c : String) :
    ∀ l : List (String × String), (∀ p ∈ l, p.1 = c) → l.Nodup →
      (l.map Prod.snd).Nodup := by
  intro l
  induction l with
  | nil => intro _ _; simp
  | cons q l ih =>
      intro hc hnd
      simp only [List.map_cons, List.nodup_cons]
      obtain ⟨hq, hl⟩ := List.nodup_cons.mp hnd
      refine ⟨?_, ih (fun p hp => hc p (List.mem_cons_of_mem q hp)) hl⟩
      intro hmem
      obtain ⟨p, hp, hps⟩ := List.mem_map.mp hmem
      have h1 : p.1 = c := hc p (List.mem_cons_of_mem q hp)
      have h2 : q.1 = c := hc q (List.mem_cons_self q l)
      have : p = q := Prod.ext (h1.trans h2.symm) hps
      exact hq (this ▸ hp)

theorem variant_field_names_nodup (fs : List FieldD)
    (h : (fs.map field_key).Nodup) : (variant_field_names fs).Nodup := by
  have hsub : ((fs.filter (fun f => decide (f.category = "variant"))).map field_key).Nodup :=
    List.Nodup.sublist (List.Sublist.map field_key (List.filter_sublist fs)) h
  have hconst : ∀ p ∈ (fs.filter (fun f => decide (f.category = "variant"))).map field_key,
      p.1 = "variant" := by
    intro p hp
    obtain ⟨f, hf, rfl⟩ := List.mem_map.mp hp
    have := List.of_mem_filter hf
    simpa [field_key] using this
  have := nodup_snd_of_const_fst "variant" _ hconst hsub
  simpa [variant_field_names, List.map_map, field_key, Function.comp] using this

theorem insert_many_fields_variants (fs : List FieldD) :
    ∀ s : Store, (insert_many_fields s fs).variants = s.variants := by
  induction fs with
  | nil => intro s; rfl
  | cons f fs ih =>
      intro s
      simp only [insert_many_fields, List.foldl_cons]
      by_cases h : (s.fields.any fun g => decide (g.category = f.category ∧ g.name = f.name)) = true
      · rw [if_pos h]; exact ih s
      · rw [if_neg h]; exact ih { s with fields := s.fields ++ [f] }

theorem insert_many_variants_rows (st : Store) (recs : List Record) :
    (insert_many_variants st recs).variants
      = st.variants ++ recs.map (row_of (variant_field_names st.fields)) := by
  simp only [insert_many_variants, create_selection_all, insert_selection]
  by_cases h : st.variants.isEmpty <;> simp [h]

/-- C8: ingest preserves input order: after ingesting N records into a store
whose catalog was registered from a duplicate-free descriptor list, the
variant table holds N rows in exactly the input order, each row carrying the
values of its source record in catalog field order; and list_fields returns
the registered descriptors in original registration order. -/
theorem ingest_preserves_order (fs : List FieldD) (records : List Record)
    (hkeys : (fs.map field_key).Nodup)
    (hrec : ∀ r ∈ records, r.map Prod.fst = variant_field_names fs) :
    get_fields (insert_many_fields empty_store fs) = fs
      ∧ (insert_many_variants (insert_many_fields empty_store fs) records).variants.length
          = records.length
      ∧ (insert_many_variants (insert_many_fields empty_store fs) records).variants
          = records.map (fun r => r.map Prod.snd) := by
  have hfields : (insert_many_fields empty_store fs).fields = fs := by
    have := insert_many_fields_eq_append fs empty_store
      (by simpa [empty_store] using hkeys)
    simpa [empty_store] using this
  have hv0 : (insert_many_fields empty_store fs).variants = [] :=
    insert_many_fields_variants fs empty_store
  have hrows : (insert_many_variants (insert_many_fields empty_store fs) records).variants
      = records.map (row_of (variant_field_names fs)) := by
    rw [insert_many_variants_rows, hv0, hfields, List.nil_append]
  have hvnodup : (variant_field_names fs).Nodup := variant_field_names_nodup fs hkeys
  have hmap : records.map (row_of (variant_field_names fs))
      = records.map (fun r => r.map Prod.snd) := by
    apply List.map_congr_left
    intro r hr
    rw [← hrec r hr]
    exact row_of_matching_keys r ((hrec r hr).symm ▸ hvnodup)
  refine ⟨hfields, ?_, hrows.trans hmap⟩
  rw [hrows, List.length_map]

/-- Witness for the C8 theorem: two catalog fields and two records ingested
in order. -/
theorem ingest_preserves_order_witness :
    ((([⟨"chr", "variant", "str", "chromosome"⟩,
        ⟨"pos", "variant", "int", "position"⟩] : List FieldD).map field_key).Nodup)
      ∧ (insert_many_variants
            (insert_many_fields empty_store
              [⟨"chr", "variant", "str", "chromosome"⟩,
                ⟨"pos", "variant", "int", "position"⟩])
            [[("chr", Value.vstr "chr1"), ("pos", Value.vint 10)],
              [("chr", Value.vstr "chr2"), ("pos", Value.vint 20)]]).variants
          = [[Value.vstr "chr1", Value.vint 10], [Value.vstr "chr2", Value.vint 20]] := by
  refine ⟨by decide, ?_⟩
  have h := (ingest_preserves_order
    [⟨"chr", "variant", "str", "chromosome"⟩, ⟨"pos", "variant", "int", "position"⟩]
    [[("chr", Value.vstr "chr1"), ("pos", Value.vint 10)],
      [("chr", Value.vstr "chr2"), ("pos", Value.vint 20)]]
    (by decide) (by decide)).2.2
  simpa using h

/-- C9: for both parsers, iterating parse_variants before parse_fields has
run on that parser instance raises the exception with message
"Cannot parse variant without parsing first fields" and yields no variant;
once parse_fields has run (establishing the header-name state), iterating
parse_variants never raises for this reason. -/
theorem parse_variants_requires_fields :
    (∀ vs, vep_parse_variants none vs
        = .error "Cannot parse variant without parsing first fields")
      ∧ (∀ vs, snpeff_parse_variants none vs
          = .error "Cannot parse variant without parsing first fields")
      ∧ (∀ fields names vs, vep_parse_fields fields = .ok names →
          vep_parse_variants (some names) vs
            = .ok (vs.map (parse_packed_one "csq" names)))
      ∧ (∀ fields names vs, snpeff_parse_fields fields = .ok names →
          snpeff_parse_variants (some names) vs
            = .ok (vs.map (parse_packed_one "ann" names))) :=
  ⟨fun _ => rfl, fun _ => rfl, fun _ _ _ _ => rfl, fun _ _ _ _ => rfl⟩

/-- Witness for the C9 theorem: an empty catalog runs parse_fields
successfully and parse_variants then succeeds on any input. -/
theorem parse_variants_requires_fields_witness :
    vep_parse_fields [] = .ok [] ∧ snpeff_parse_fields [] = .ok []
      ∧ vep_parse_variants (some []) [[("chr", "1")]]
          = .ok [⟨[("chr", "1")], none⟩]
      ∧ snpeff_parse_variants (some []) [[("chr", "1")]]
          = .ok [⟨[("chr", "1")], none⟩] :=
  ⟨rfl, rfl,
    parse_variants_requires_fields.2.2.1 [] [] [[("chr", "1")]] rfl,
    parse_variants_requires_fields.2.2.2 [] [] [[("chr", "1")]] rfl⟩

theorem filterMap_guard {α β : Type} (p : α → Prop) [DecidablePred p] (f : α → β) :
    ∀ l : List α,
      l.filterMap (fun x => if p x then some (f x) else none)
        = (l.filter (fun x => decide (p x))).map f := by
  intro l
  induction l with
  | nil => rfl
  | cons x l ih =>
      by_cases hx : p x <;>
        simp [List.filterMap_cons, List.filter_cons, hx, ih]

/-- C10: with the header-name state established, parse_variants of either
parser is total on malformed packed annotations: every variant is mapped, a
variant with no packed key is yielded unchanged, and a variant with a packed
key is yielded with exactly the well-formed transcript entries (those whose
pipe-separated piece count equals the header field count), each mapped
positionally onto the header names; malformed entries are skipped without
error. -/
theorem parse_variants_skips_malformed :
    (∀ (names : List String) vs,
        (∃ out, vep_parse_variants (some names) vs = .ok out)
          ∧ (∃ out, snpeff_parse_variants (some names) vs = .ok out)
          ∧ vep_parse_variants (some names) vs
              = .ok (vs.map (parse_packed_one "csq" names))
          ∧ snpeff_parse_variants (some names) vs
              = .ok (vs.map (parse_packed_one "ann" names)))
      ∧ (∀ (key : String) (names : List String) v,
          List.lookup key v = none → parse_packed_one key names v = ⟨v, none⟩)
      ∧ (∀ (key : String) (names : List String) v raw,
          List.lookup key v = some raw →
          ∃ anns,
            parse_packed_one key names v
                = ⟨v.filter (fun p => p.1 ≠ key), some anns⟩
              ∧ anns = ((py_split ',' raw).filter
                    (fun ts => (py_split '|' ts).length = names.length)).map
                  (fun ts => names.zip (py_split '|' ts))
              ∧ (∀ a ∈ anns, a.map Prod.fst = names)
              ∧ anns.length = ((py_split ',' raw).filter
                    (fun ts => (py_split '|' ts).length = names.length)).length) := by
  refine ⟨fun names vs => ⟨⟨_, rfl⟩, ⟨_, rfl⟩, rfl, rfl⟩, ?_, ?_⟩
  · intro key names v h
    simp [parse_packed_one, h]
  · intro key names v raw h
    refine ⟨((py_split ',' raw).filter
        (fun ts => (py_split '|' ts).length = names.length)).map
      (fun ts => names.zip (py_split '|' ts)), ?_, rfl, ?_, by rw [List.length_map]⟩
    · simp only [parse_packed_one, h]
      rw [filterMap_guard (fun ts => (py_split '|' ts).length = names.length)
        (fun ts => names.zip (py_split '|' ts)) (py_split ',' raw)]
    · intro a ha
      obtain ⟨ts, hts, rfl⟩ := List.mem_map.mp ha
      have hlen : (py_split '|' ts).length = names.length := by
        have := List.of_mem_filter hts
        simpa using this
      exact List.map_fst_zip names (py_split '|' ts) (le_of_eq hlen.symm)

/-- Witness for the C10 theorem: a packed value with one well-formed and one
malformed transcript entry, and a variant lacking the packed key. -/
theorem parse_variants_skips_malformed_witness :
    (List.lookup "csq" [("chr", "1")] = none
        ∧ parse_packed_one "csq" ["gene", "impact"] [("chr", "1")]
            = ⟨[("chr", "1")], none⟩)
      ∧ (List.lookup "csq" [("chr", "1"), ("csq", "A|B,bad")] = some "A|B,bad"
        ∧ ∃ anns,
            parse_packed_one "csq" ["gene", "impact"] [("chr", "1"), ("csq", "A|B,bad")]
                = ⟨[("chr", "1")].filter (fun p => p.1 ≠ "csq"), some anns⟩
              ∧ anns = ((py_split ',' "A|B,bad").filter
                    (fun ts => (py_split '|' ts).length = (["gene", "impact"] : List String).length)).map
                  (fun ts => (["gene", "impact"] : List String).zip (py_split '|' ts))
              ∧ (∀ a ∈ anns, a.map Prod.fst = ["gene", "impact"])
              ∧ anns.length = ((py_split ',' "A|B,bad").filter
                    (fun ts => (py_split '|' ts).length = (["gene", "impact"] : List String).length)).length) := by
  refine ⟨⟨rfl, parse_variants_skips_malformed.2.1 "csq" ["gene", "impact"] [("chr", "1")] rfl⟩,
    rfl, ?_⟩
  have h := parse_variants_skips_malformed.2.2 "csq" ["gene", "impact"]
    [("chr", "1"), ("csq", "A|B,bad")] "A|B,bad" rfl
  simpa using h
